import Mathlib

/-!
Verification development for the hot-reloadable module runtime
(`crates/mun_runtime/src/assembly.rs`): assembly loading, cross-assembly
linking against a dispatch table, and hot swapping.

The data model and the operations `Assembly.load`, `Assembly.link_all` and
`Assembly.swap` are shallow embeddings of the Rust source.  Mutation through
`&mut` references is made explicit: functions return the updated values of
everything the Rust code can mutate.  Native code pointers are tagged with
the identity of the library whose mapped code they point into, so that
"points into unloaded code" is expressible; a null pointer is `FnPtr.null`.
-/

/-- An ordered function signature: parameter types in order plus a return
type.  Only structural equality of signatures matters to the linker. -/
structure FnSignature where
  arg_types : List String
  return_type : String
deriving DecidableEq

/-- A function prototype: a name together with its signature
(`fn_prototype` in the source). -/
structure FnPrototype where
  name : String
  signature : FnSignature
deriving DecidableEq

/-- A raw code pointer (`*const c_void`): either null, or an address inside
the mapped native code of the library identified by `lib`. -/
inductive FnPtr where
  | null : FnPtr
  | code (lib : Nat) (addr : Nat) : FnPtr
deriving DecidableEq

/-- An exported function: its prototype and its resolved code address
(`FunctionDefinition` of the ABI). -/
structure FunctionDefinition where
  prototype : FnPrototype
  fn_ptr : FnPtr
deriving DecidableEq

/-- One entry of an assembly's foreign code table
(`info.dispatch_table.iter_mut()` yields `(ptr, fn_prototype)` pairs): a
call-site slot holding a raw pointer, null while unresolved, paired with the
prototype the call site expects. -/
structure ForeignSlot where
  ptr : FnPtr
  prototype : FnPrototype
deriving DecidableEq

/-- An exported type: an identity plus an opaque layout descriptor, consumed
only by the garbage collector's mapping algorithm. -/
structure TypeInfo where
  name : String
deriving DecidableEq

/-- The metadata extracted from a loaded module (`AssemblyInfo`):
`functions` is `info.symbols.functions()`, `types` is
`info.symbols.types()`, and `dispatch_table` is the module's foreign code
table `info.dispatch_table`. -/
structure AssemblyInfo where
  functions : List FunctionDefinition
  types : List TypeInfo
  dispatch_table : List ForeignSlot
deriving DecidableEq

/-- A hot reloadable compilation unit (`struct Assembly`).  `library` and
the members of `legacy_libs` are `TempLibrary` handles, identified by the
`Nat` id of the native module they keep mapped; `allocator` is the shared
garbage collector handle. -/
structure Assembly where
  library_path : String
  library : Nat
  legacy_libs : List Nat
  info : AssemblyInfo
  allocator : Nat
deriving DecidableEq

/-- The runtime-wide dispatch table: a registry from exported function names
to their current `FunctionDefinition`, with unique keys. -/
structure DispatchTable where
  entries : List (String × FunctionDefinition)
deriving DecidableEq

/-- `DispatchTable::get_fn`: look a function up by name. -/
def DispatchTable.get_fn (t : DispatchTable) (n : String) : Option FunctionDefinition :=
  (t.entries.find? fun e => e.1 == n).map (·.2)

/-- `DispatchTable::insert_fn`: unconditional overwrite of the entry for
`n`. -/
def DispatchTable.insert_fn (t : DispatchTable) (n : String) (f : FunctionDefinition) :
    DispatchTable :=
  ⟨(n, f) :: t.entries.filter fun e => e.1 != n⟩

/-- `DispatchTable::remove_fn`: drop the entry for `n`, if any. -/
def DispatchTable.remove_fn (t : DispatchTable) (n : String) : DispatchTable :=
  ⟨t.entries.filter fun e => e.1 != n⟩

/-- Modelled from the spec: `abi::ABI_VERSION`, the runtime's compiled-in
ABI version constant (defined in the external `abi` crate; its concrete
value is immaterial here). -/
def ABI_VERSION : Nat := 300

/-- Modelled from the spec: the module (compiled-assembly) contract of §6 —
a declared ABI version constant, an injectable allocator-handle slot
(`set_allocator_handle` writes it), the extractable `AssemblyInfo`, and the
identity of the native code module that loading this file maps. -/
structure ModuleFile where
  abi_version : Nat
  allocator_handle : Option Nat
  info : AssemblyInfo
  library_id : Nat
deriving DecidableEq

/-- Modelled from the spec: the file system as seen by `MunLibrary::new` — a
library path either loads as a module file or fails to load. -/
def FileSystem : Type := String → Option ModuleFile

/-- The error taxonomy of the runtime (the source returns `anyhow` errors;
the constructors carry exactly the data each source error message reports).
`missingDependencies` corresponds to "Failed to link due to missing
dependencies."; the individual missing names are reported through the log,
not through the error value. -/
inductive RuntimeError where
  | loadError (path : String)
  | abiMismatch (expected found : Nat)
  | signatureMismatch (name : String) (expected found : FnPrototype)
  | missingDependencies
deriving DecidableEq

/-- `Assembly::load` (assembly.rs:28-53).  Loads the module file, validates
its declared ABI version against the runtime's, installs the allocator
handle, extracts the info and constructs the `Assembly`.  The second
component is the final state of the module file that was loaded (`none` if
the file failed to load at all), so the effect on the module — in
particular whether the allocator handle was installed — is observable. -/
def Assembly.load (fs : FileSystem) (library_path : String) (gc : Nat) :
    Except RuntimeError Assembly × Option ModuleFile :=
  match fs library_path with
  | none => (.error (.loadError library_path), none)
  | some library =>
    let version := library.abi_version
    if ABI_VERSION ≠ version then
      (.error (.abiMismatch ABI_VERSION version), some library)
    else
      let library' := { library with allocator_handle := some gc }
      let assembly : Assembly :=
        { library_path := library_path
          library := library.library_id
          legacy_libs := []
          info := library.info
          allocator := gc }
      (.ok assembly, some library')

/-- A reference to one foreign-code-table slot, standing for the `&mut` raw
slot pointer a worklist entry of `link_all` holds: the index of the owning
assembly in the batch and the index of the slot in that assembly's foreign
code table, together with the expected prototype. -/
structure SlotRef where
  asmIdx : Nat
  slotIdx : Nat
  prototype : FnPrototype
deriving DecidableEq

/-- Apply `f` to the element at index `n`, leaving the list unchanged when
`n` is out of range. -/
def setNth (f : α → α) : Nat → List α → List α
  | _, [] => []
  | 0, a :: l => f a :: l
  | n + 1, a :: l => a :: setNth f n l

/-- The foreign slot a `SlotRef`-style pair of indices designates. -/
def slotAt (asms : List Assembly) (i j : Nat) : Option ForeignSlot :=
  (asms[i]?).bind fun a => a.info.dispatch_table[j]?

/-- Write a resolved code address through a slot reference
(`*dispatch_ptr = fn_def.fn_ptr`). -/
def writeSlot (asms : List Assembly) (i j : Nat) (p : FnPtr) : List Assembly :=
  setNth
    (fun a =>
      { a with
        info :=
          { a.info with
            dispatch_table := setNth (fun s => { s with ptr := p }) j a.info.dispatch_table } })
    i asms

/-- Collect the unresolved slots of one foreign code table, in order, with
absolute indices starting at `(i, j0)`. -/
def collectAsmSlots (i j0 : Nat) : List ForeignSlot → List SlotRef
  | [] => []
  | s :: rest =>
    (if s.ptr = FnPtr.null then [⟨i, j0, s.prototype⟩] else []) ++ collectAsmSlots i (j0 + 1) rest

/-- Collect the unresolved slots of all assemblies, in batch order. -/
def collectSlots (i0 : Nat) : List Assembly → List SlotRef
  | [] => []
  | a :: rest => collectAsmSlots i0 0 a.info.dispatch_table ++ collectSlots (i0 + 1) rest

/-- The worklist `to_link` of `link_all` (assembly.rs:73-79): every foreign
code table slot, across all input assemblies, that does not yet have a
function pointer assigned. -/
def collectNullSlots (asms : List Assembly) : List SlotRef :=
  collectSlots 0 asms

/-- Insert every exported function of one assembly into a dispatch table
(assembly.rs:68-70), in export order. -/
def insertExports (a : Assembly) (t : DispatchTable) : DispatchTable :=
  a.info.functions.foldl (fun t f => t.insert_fn f.prototype.name f) t

/-- Insert every exported function of every assembly of the batch
(assembly.rs:67-71). -/
def insertAllExports (asms : List Assembly) (t : DispatchTable) : DispatchTable :=
  asms.foldl (fun t a => insertExports a t) t

/-- One sweep of the fixpoint loop (assembly.rs:87-100): process the
worklist in order; a slot whose name is absent from the table is deferred
to `failed_to_link`, a present name with a mismatching signature aborts the
whole call, and a match writes the resolved pointer through the slot and
latches `retry`.  Returns the assemblies after the in-place slot writes
(these persist even when the sweep aborts) together with either the error
or the deferred list and the `retry` flag. -/
def sweep (dt : DispatchTable) :
    List Assembly → List SlotRef → List Assembly × Except RuntimeError (List SlotRef × Bool)
  | asms, [] => (asms, .ok ([], false))
  | asms, r :: rest =>
    match dt.get_fn r.prototype.name with
    | some fd =>
      if r.prototype.signature = fd.prototype.signature then
        let res := sweep dt (writeSlot asms r.asmIdx r.slotIdx fd.fn_ptr) rest
        (res.1, res.2.map fun pr => (pr.1, true))
      else
        (asms, .error (.signatureMismatch r.prototype.name r.prototype fd.prototype))
    | none =>
      let res := sweep dt asms rest
      (res.1, res.2.map fun pr => (r :: pr.1, pr.2))

/-- The `while retry` fixpoint loop of `link_all` (assembly.rs:81-104),
with an explicit fuel so the recursion is structural; `link_all` runs it
with fuel `worklist length + 1`, which `linkLoop_fuel_congr` proves is
enough for the loop to reach its fixpoint, so the fuel never limits the
behaviour of the embedded loop.  The `Nat` component counts the sweeps
(loop iterations) executed. -/
def linkLoop (dt : DispatchTable) :
    Nat → List Assembly → List SlotRef → List Assembly × Nat × Except RuntimeError (List SlotRef)
  | 0, asms, wl => (asms, 0, .ok wl)
  | fuel + 1, asms, wl =>
    match sweep dt asms wl with
    | (a, .error e) => (a, 1, .error e)
    | (a, .ok (failed, r)) =>
      if r then
        let res := linkLoop dt fuel a failed
        (res.1, res.2.1 + 1, res.2.2)
      else (a, 1, .ok failed)

/-- `Assembly::link_all` (assembly.rs:57-118).  Clones the caller's
dispatch table (the caller's own table is taken by shared reference and is
never written), inserts every assembly's exports into the duplicate,
collects the unresolved foreign slots and resolves them by fixpoint
sweeps.  Returns the assemblies as mutated through the worklist's `&mut`
slot references — these mutations persist even on error — together with
either the new table or the error; on error no table escapes. -/
def Assembly.link_all (assemblies : List Assembly) (dispatch_table : DispatchTable) :
    List Assembly × Except RuntimeError DispatchTable :=
  let dt := insertAllExports assemblies dispatch_table
  let to_link := collectNullSlots assemblies
  match linkLoop dt (to_link.length + 1) assemblies to_link with
  | (asms, _, .error e) => (asms, .error e)
  | (asms, _, .ok remaining) =>
    if remaining.isEmpty then (asms, .ok dt) else (asms, .error .missingDependencies)

/-- The number of sweeps (iterations of the `while retry` loop) a
`link_all` call executes on the given inputs. -/
def link_all_sweeps (assemblies : List Assembly) (dispatch_table : DispatchTable) : Nat :=
  (linkLoop (insertAllExports assemblies dispatch_table)
    ((collectNullSlots assemblies).length + 1) assemblies (collectNullSlots assemblies)).2.1

/-- The total number of foreign-code-table slots across a batch of
assemblies (the `N` of the spec's termination bound). -/
def totalSlots (asms : List Assembly) : Nat :=
  (asms.map fun a => a.info.dispatch_table.length).sum

/-- Modelled from the spec: `Assembly::link`, called by `swap`
(assembly.rs:162) but defined outside this source.  Per §4.4 step 5 it is
§4.3 scoped to this one assembly joining an already-linked live table: the
assembly's exports are inserted into the live dispatch table and its own
foreign code table is resolved against it by the fixpoint of §4.3; an
unresolvable slot or a signature mismatch is a linking error.  Returns the
(possibly partially) linked assembly, the live table after the insertions,
and the linking outcome. -/
def Assembly.link (self : Assembly) (table : DispatchTable) :
    Assembly × DispatchTable × Except RuntimeError Unit :=
  let dt := insertExports self table
  let wl := collectNullSlots [self]
  match linkLoop dt (wl.length + 1) [self] wl with
  | (asms, _, .error e) => (asms.headD self, dt, .error e)
  | (asms, _, .ok remaining) =>
    if remaining.isEmpty then (asms.headD self, dt, .ok ())
    else (asms.headD self, dt, .error .missingDependencies)

/-- `Assembly::swap` (assembly.rs:121-176).  `mapMemory` is the garbage
collector's `map_memory` collaborator (external to this core): given the
old and new exported type tables it migrates the live heap and returns the
identifiers of the deleted (orphaned) objects.  The function returns the
new value of `self`, the new value of the `&mut` runtime dispatch table,
and the call's outcome.  Note that the source discards the result of the
step-5 `link` call and completes the swap regardless. -/
def Assembly.swap (fs : FileSystem) (mapMemory : List TypeInfo → List TypeInfo → List Nat)
    (self : Assembly) (library_path : String) (runtime_dispatch_table : DispatchTable) :
    Assembly × DispatchTable × Except RuntimeError Unit :=
  match (Assembly.load fs library_path self.allocator).1 with
  | .error e => (self, runtime_dispatch_table, .error e)
  | .ok new_assembly =>
    let deleted_objects := mapMemory self.info.types new_assembly.info.types
    let dt1 := self.info.functions.foldl
      (fun t f => t.remove_fn f.prototype.name) runtime_dispatch_table
    let linked := Assembly.link new_assembly dt1
    let new1 := linked.1
    let dt2 := linked.2.1
    let new2 := { new1 with legacy_libs := new1.legacy_libs ++ self.legacy_libs }
    let old_assembly := self
    let final :=
      if deleted_objects.isEmpty then new2
      else { new2 with legacy_libs := new2.legacy_libs ++ [old_assembly.library] }
    (final, dt2, .ok ())

/-- The state a caller of `link_all` owns: the batch of assemblies (passed
by `&mut`) and the live dispatch table (passed by shared reference). -/
structure LinkState where
  assemblies : List Assembly
  table : DispatchTable
deriving DecidableEq

/-- A `link_all` call as its caller observes it, following the borrow
structure of the source signature: the assemblies come back possibly
mutated, the caller's own table is untouched, and the produced table (on
success) is only available through the returned value. -/
def linkAllCall (s : LinkState) : LinkState × Except RuntimeError DispatchTable :=
  let r := Assembly.link_all s.assemblies s.table
  ({ assemblies := r.1, table := s.table }, r.2)

/-- Modelled from the spec: the native code modules kept resident by a set
of assemblies — each assembly's own library plus its retained legacy
libraries (§3, §5).  A module absent from this list has been dropped and
its native code unloaded. -/
def liveLibs : List Assembly → List Nat
  | [] => []
  | a :: rest => a.library :: (a.legacy_libs ++ liveLibs rest)

/-- The last export of a list of function definitions carrying a given
name, mirroring last-insert-wins of `insert_fn`. -/
def exportsLookup (n : String) : List FunctionDefinition → Option FunctionDefinition
  | [] => none
  | f :: fs =>
    (exportsLookup n fs).elim (if f.prototype.name == n then some f else none) some

/-- Discriminates a `link_all` outcome that is a signature-mismatch
error. -/
def isSignatureMismatchB : Except RuntimeError DispatchTable → Bool
  | .error (.signatureMismatch _ _ _) => true
  | _ => false

/-- Well-formedness of a dispatch table's contents: every definition it can
return carries a non-null code pointer.  Every table the runtime builds
satisfies this, since exported functions of compiled modules always carry
resolved addresses. -/
def tableGood (t : DispatchTable) : Prop :=
  ∀ n fd, t.get_fn n = some fd → fd.fn_ptr ≠ FnPtr.null

/-- Every slot reference of the worklist designates an existing slot of the
batch. -/
def wlValid (asms : List Assembly) (wl : List SlotRef) : Prop :=
  ∀ r ∈ wl, ∃ s, slotAt asms r.asmIdx r.slotIdx = some s

/-- Every null (unresolved) slot of the batch is referenced by the
worklist: the loop invariant of the fixpoint sweeps. -/
def nullCovered (asms : List Assembly) (wl : List SlotRef) : Prop :=
  ∀ i j s, slotAt asms i j = some s → s.ptr = FnPtr.null →
    ∃ p, (⟨i, j, p⟩ : SlotRef) ∈ wl

/-- A sample signature (`(Circle) -> f64`). -/
def sigA : FnSignature := ⟨["Circle"], "f64"⟩

/-- A second, structurally different signature (`(Circle) -> f32`). -/
def sigB : FnSignature := ⟨["Circle"], "f32"⟩

/-- A sample prototype `f : (Circle) -> f64`. -/
def protoF : FnPrototype := ⟨"f", sigA⟩

/-- A sample prototype `g : (Circle) -> f64`. -/
def protoG : FnPrototype := ⟨"g", sigA⟩

/-- Assembly A of the stale-pointer scenario: library 1, exports `f` at
address `code 1 0`, no foreign slots. -/
def asmA_c1 : Assembly := ⟨"a", 1, [], ⟨[⟨protoF, .code 1 0⟩], [], []⟩, 7⟩

/-- Assembly B of the stale-pointer scenario: library 2, exports nothing,
one unresolved foreign slot expecting `f`. -/
def asmB_c1 : Assembly := ⟨"b", 2, [], ⟨[], [], [⟨.null, protoF⟩]⟩, 7⟩

/-- Assembly B after linking: its slot holds `code 1 0`, a pointer into
library 1. -/
def asmB_c1_linked : Assembly := ⟨"b", 2, [], ⟨[], [], [⟨.code 1 0, protoF⟩]⟩, 7⟩

/-- The dispatch table after linking A and B: `f` resolved into library 1. -/
def dt_c1 : DispatchTable := ⟨[("f", ⟨protoF, .code 1 0⟩)]⟩

/-- The replacement module for A: same ABI version, exports nothing (no
`f`), maps library 3. -/
def mf_c1 : ModuleFile := ⟨300, none, ⟨[], [], []⟩, 3⟩

/-- The file system holding A's replacement at path `a2`. -/
def fs_c1 : FileSystem := fun p => if p = "a2" then some mf_c1 else none

/-- The assembly that replaces A after the swap: library 3, no exports, no
legacy libraries. -/
def newA_c1 : Assembly := ⟨"a2", 3, [], ⟨[], [], []⟩, 7⟩

/-- Original assembly of the failed-relink swap scenario: library 1,
exports `fold`. -/
def asmA_c2 : Assembly := ⟨"a", 1, [], ⟨[⟨⟨"fold", sigA⟩, .code 1 0⟩], [], []⟩, 7⟩

/-- Replacement module of the failed-relink scenario: it has an unresolved
foreign slot expecting `g`, which nothing exports, so step-5 linking must
fail. -/
def mf_c2 : ModuleFile := ⟨300, none, ⟨[], [], [⟨.null, protoG⟩]⟩, 3⟩

/-- File system holding the replacement at path `p2`. -/
def fs_c2 : FileSystem := fun p => if p = "p2" then some mf_c2 else none

/-- The live dispatch table before the failed-relink swap: contains the
original's export `fold`. -/
def T_c2 : DispatchTable := ⟨[("fold", ⟨⟨"fold", sigA⟩, .code 1 0⟩)]⟩

/-- An assembly with one unresolvable foreign slot (`h` is exported by
nobody), used to drive `link_all` into a missing-dependency error. -/
def asmB_c3 : Assembly := ⟨"b", 2, [], ⟨[], [], [⟨.null, ⟨"h", sigA⟩⟩]⟩, 7⟩

/-- A caller state whose `link_all` call fails with a missing
dependency. -/
def st_c3 : LinkState := ⟨[asmB_c3], ⟨[]⟩⟩

/-- A self-contained assembly: exports `g` and has one foreign slot for
`g`, so linking it alone succeeds. -/
def asmA_c4 : Assembly := ⟨"a", 1, [], ⟨[⟨protoG, .code 1 3⟩], [], [⟨.null, protoG⟩]⟩, 7⟩

/-- An assembly whose single foreign slot expects `f : (Circle) -> f64`. -/
def asmB_c5 : Assembly := ⟨"b", 2, [], ⟨[], [], [⟨.null, protoF⟩]⟩, 7⟩

/-- A base table exporting `f` with the incompatible signature
`(Circle) -> f32`. -/
def T_c5 : DispatchTable := ⟨[("f", ⟨⟨"f", sigB⟩, .code 9 9⟩)]⟩

/-- A module file declaring ABI version 7 (the runtime's is 300), allocator
handle not installed. -/
def mf_c6 : ModuleFile := ⟨7, none, ⟨[], [], []⟩, 4⟩

/-- File system holding the version-7 module at path `m`. -/
def fs_c6 : FileSystem := fun p => if p = "m" then some mf_c6 else none

/-- An assembly with one retained legacy library (9) and one exported type,
used for the legacy-retention scenario. -/
def asmA_c7 : Assembly := ⟨"a", 1, [9], ⟨[⟨protoG, .code 1 0⟩], [⟨"T"⟩], []⟩, 7⟩

/-- A replacement module with no types (so objects of `T` orphan), mapping
library 3. -/
def mf_c7 : ModuleFile := ⟨300, none, ⟨[], [], []⟩, 3⟩

/-- File system holding the replacement at path `p7`. -/
def fs_c7 : FileSystem := fun p => if p = "p7" then some mf_c7 else none

/-- An assembly with exactly one foreign slot, resolvable from the base
table: the loop then needs two sweeps (one resolving, one confirming). -/
def asmA_c8 : Assembly := ⟨"a", 1, [], ⟨[], [], [⟨.null, protoF⟩]⟩, 7⟩

/-- A base table exporting `f` compatibly. -/
def T_c8 : DispatchTable := ⟨[("f", ⟨protoF, .code 9 1⟩)]⟩

/-- An assembly with no unresolved foreign slots that exports `g`. -/
def asmA_c9 : Assembly := ⟨"a", 1, [], ⟨[⟨protoG, .code 1 3⟩], [], [⟨.code 1 3, protoG⟩]⟩, 7⟩

/-- A base table with an entry for `f`, untouched by linking `asmA_c9`. -/
def T_c9 : DispatchTable := ⟨[("f", ⟨protoF, .code 9 1⟩)]⟩

/-- An assembly whose first foreign slot (`g`) resolves against its own
export and whose second slot (`f`) hits a signature mismatch. -/
def asmB_c10 : Assembly :=
  ⟨"b", 2, [], ⟨[⟨protoG, .code 2 5⟩], [], [⟨.null, protoG⟩, ⟨.null, protoF⟩]⟩, 7⟩

/-- A base table exporting `f` with the incompatible signature
`(Circle) -> f32`. -/
def T_c10 : DispatchTable := ⟨[("f", ⟨⟨"f", sigB⟩, .code 9 9⟩)]⟩

theorem find?_filter_key {l : List (String × FunctionDefinition)} {n m : String} (h : m ≠ n) :
    (l.filter fun e => e.1 != n).find? (fun e => e.1 == m) =
      l.find? (fun e => e.1 == m) := by
  induction l with
  | nil => rfl
  | cons e l ih =>
    by_cases he : e.1 = n
    · have h1 : (e.1 != n) = false := by simp [he]
      have h2 : (e.1 == m) = false := by
        simp only [beq_eq_false_iff_ne, ne_eq, he]
        exact fun hh => h hh.symm
      simp [List.filter_cons, h1, List.find?_cons, h2, ih]
    · have h1 : (e.1 != n) = true := by simp [he]
      by_cases hm : e.1 = m
      · have h2 : (e.1 == m) = true := by simp [hm]
        simp [List.filter_cons, h1, List.find?_cons, h2]
      · have h2 : (e.1 == m) = false := by simp [hm]
        simp [List.filter_cons, h1, List.find?_cons, h2, ih]

theorem get_fn_insert (t : DispatchTable) (n : String) (f : FunctionDefinition) (m : String) :
    (t.insert_fn n f).get_fn m = if m = n then some f else t.get_fn m := by
  unfold DispatchTable.insert_fn DispatchTable.get_fn
  by_cases h : m = n
  · subst h
    simp [List.find?_cons]
  · have h2 : (n == m) = false := by
      simp only [beq_eq_false_iff_ne, ne_eq]
      exact fun hh => h hh.symm
    simp only [List.find?_cons, h2, if_neg h]
    rw [find?_filter_key h]

theorem tableGood_of_entries (t : DispatchTable)
    (h : ∀ e ∈ t.entries, e.2.fn_ptr ≠ FnPtr.null) : tableGood t := by
  intro n fd hfd
  unfold DispatchTable.get_fn at hfd
  rcases Option.map_eq_some'.mp hfd with ⟨e, he, rfl⟩
  exact h e (List.mem_of_find?_eq_some he)

theorem tableGood_insert {t : DispatchTable} (ht : tableGood t) {f : FunctionDefinition}
    (hf : f.fn_ptr ≠ FnPtr.null) (n : String) : tableGood (t.insert_fn n f) := by
  intro m fd hfd
  rw [get_fn_insert] at hfd
  by_cases h : m = n
  · rw [if_pos h] at hfd
    cases hfd
    exact hf
  · rw [if_neg h] at hfd
    exact ht m fd hfd

theorem tableGood_foldl_insert {fs : List FunctionDefinition} :
    ∀ {t : DispatchTable}, (∀ f ∈ fs, f.fn_ptr ≠ FnPtr.null) → tableGood t →
      tableGood (fs.foldl (fun t f => t.insert_fn f.prototype.name f) t) := by
  induction fs with
  | nil => exact fun h ht => ht
  | cons f fs ih =>
    intro t h ht
    exact ih (fun g hg => h g (List.mem_cons_of_mem _ hg))
      (tableGood_insert ht (h f (List.mem_cons_self _ _)) _)

theorem tableGood_insertExports {a : Assembly} {t : DispatchTable}
    (ha : ∀ f ∈ a.info.functions, f.fn_ptr ≠ FnPtr.null) (ht : tableGood t) :
    tableGood (insertExports a t) :=
  tableGood_foldl_insert ha ht

theorem tableGood_insertAllExports {asms : List Assembly} :
    ∀ {t : DispatchTable}, (∀ a ∈ asms, ∀ f ∈ a.info.functions, f.fn_ptr ≠ FnPtr.null) →
      tableGood t → tableGood (insertAllExports asms t) := by
  induction asms with
  | nil => exact fun _ ht => ht
  | cons a asms ih =>
    intro t ha ht
    exact ih (fun x hx => ha x (List.mem_cons_of_mem _ hx))
      (tableGood_insertExports (ha a (List.mem_cons_self _ _)) ht)

theorem setNth_getElem?_self (f : α → α) :
    ∀ (n : Nat) (l : List α), (setNth f n l)[n]? = (l[n]?).map f
  | _, [] => by simp [setNth]
  | 0, a :: l => by simp [setNth]
  | n + 1, a :: l => by simpa [setNth] using setNth_getElem?_self f n l

theorem setNth_getElem?_ne (f : α → α) {m n : Nat} (h : m ≠ n) (l : List α) :
    (setNth f n l)[m]? = l[m]? := by
  induction l generalizing m n with
  | nil => simp [setNth]
  | cons a l ih =>
    cases n with
    | zero =>
      cases m with
      | zero => exact absurd rfl h
      | succ m => simp [setNth]
    | succ n =>
      cases m with
      | zero => simp [setNth]
      | succ m =>
        simp only [setNth, List.getElem?_cons_succ]
        exact @ih m n (fun hh => h (by rw [hh]))

theorem ForeignSlot.ptr_update_update (s : ForeignSlot) (p1 p2 : FnPtr) :
    ({ { s with ptr := p1 } with ptr := p2 } : ForeignSlot) = { s with ptr := p2 } := rfl

theorem slotAt_writeSlot_self (asms : List Assembly) (i j : Nat) (p : FnPtr) :
    slotAt (writeSlot asms i j p) i j =
      (slotAt asms i j).map fun s => { s with ptr := p } := by
  unfold slotAt writeSlot
  rw [setNth_getElem?_self]
  cases asms[i]? with
  | none => rfl
  | some a => simp [setNth_getElem?_self]

theorem slotAt_writeSlot_ne (asms : List Assembly) (i j i' j' : Nat) (p : FnPtr)
    (h : i ≠ i' ∨ j ≠ j') :
    slotAt (writeSlot asms i j p) i' j' = slotAt asms i' j' := by
  unfold slotAt writeSlot
  by_cases hi : i' = i
  · subst hi
    rw [setNth_getElem?_self]
    have hj : j' ≠ j := by
      rcases h with h | h
      · exact absurd rfl h
      · exact fun hh => h hh.symm
    cases asms[i']? with
    | none => rfl
    | some a => simp [setNth_getElem?_ne _ hj]
  · rw [setNth_getElem?_ne _ hi]

theorem slotAt_writeSlot_isSome (asms : List Assembly) (i j : Nat) (p : FnPtr) (i' j' : Nat) :
    (slotAt (writeSlot asms i j p) i' j').isSome = (slotAt asms i' j').isSome := by
  by_cases hij : i = i' ∧ j = j'
  · obtain ⟨rfl, rfl⟩ := hij
    rw [slotAt_writeSlot_self]
    cases slotAt asms i j <;> rfl
  · rw [slotAt_writeSlot_ne]
    rcases Decidable.not_and_iff_or_not.mp hij with h | h
    · exact Or.inl h
    · exact Or.inr h

theorem setNth_map_inv (g : α → β) (f : α → α) (hf : ∀ x, g (f x) = g x) :
    ∀ (n : Nat) (l : List α), (setNth f n l).map g = l.map g := by
  intro n l
  induction l generalizing n with
  | nil => cases n <;> rfl
  | cons a l ih =>
    cases n with
    | zero => simp [setNth, hf]
    | succ n => simp [setNth, ih n]

theorem collectAsmSlots_covers (l : List ForeignSlot) :
    ∀ (i j0 j : Nat) (s : ForeignSlot), l[j]? = some s → s.ptr = FnPtr.null →
      (⟨i, j0 + j, s.prototype⟩ : SlotRef) ∈ collectAsmSlots i j0 l := by
  induction l with
  | nil => intro i j0 j s h _; simp at h
  | cons a l ih =>
    intro i j0 j s h hnull
    cases j with
    | zero =>
      simp only [List.getElem?_cons_zero, Option.some.injEq] at h
      subst h
      simp [collectAsmSlots, hnull]
    | succ j =>
      simp only [List.getElem?_cons_succ] at h
      have hmem := ih i (j0 + 1) j s h hnull
      have harith : j0 + (j + 1) = (j0 + 1) + j := by omega
      rw [collectAsmSlots, harith]
      exact List.mem_append_right _ hmem

theorem collectSlots_covers (asms : List Assembly) :
    ∀ (i0 i j : Nat) (a : Assembly) (s : ForeignSlot),
      asms[i]? = some a → a.info.dispatch_table[j]? = some s → s.ptr = FnPtr.null →
      (⟨i0 + i, j, s.prototype⟩ : SlotRef) ∈ collectSlots i0 asms := by
  induction asms with
  | nil => intro i0 i j a s h _ _; simp at h
  | cons b asms ih =>
    intro i0 i j a s ha hs hnull
    cases i with
    | zero =>
      simp only [List.getElem?_cons_zero, Option.some.injEq] at ha
      subst ha
      rw [collectSlots]
      refine List.mem_append_left _ ?_
      simpa using collectAsmSlots_covers _ i0 0 j s hs hnull
    | succ i =>
      simp only [List.getElem?_cons_succ] at ha
      have hmem := ih (i0 + 1) i j a s ha hs hnull
      have harith : i0 + (i + 1) = (i0 + 1) + i := by omega
      rw [collectSlots, harith]
      exact List.mem_append_right _ hmem

theorem collectNullSlots_covers (asms : List Assembly) :
    nullCovered asms (collectNullSlots asms) := by
  intro i j s hs hnull
  rcases Option.bind_eq_some.mp hs with ⟨a, ha, hsl⟩
  refine ⟨s.prototype, ?_⟩
  have := collectSlots_covers asms 0 i j a s ha hsl hnull
  simpa [collectNullSlots] using this

theorem collectAsmSlots_sound (l : List ForeignSlot) :
    ∀ (i j0 : Nat) (r : SlotRef), r ∈ collectAsmSlots i j0 l →
      r.asmIdx = i ∧ ∃ j s, r.slotIdx = j0 + j ∧ l[j]? = some s := by
  induction l with
  | nil => intro i j0 r h; simp [collectAsmSlots] at h
  | cons a l ih =>
    intro i j0 r h
    rw [collectAsmSlots] at h
    rcases List.mem_append.mp h with h | h
    · by_cases hnull : a.ptr = FnPtr.null
      · rw [if_pos hnull] at h
        simp only [List.mem_singleton] at h
        subst h
        exact ⟨rfl, 0, a, by simp, by simp⟩
      · rw [if_neg hnull] at h
        simp at h
    · rcases ih i (j0 + 1) r h with ⟨h1, j, s, h2, h3⟩
      exact ⟨h1, j + 1, s, by omega, by simpa using h3⟩

theorem collectSlots_sound (asms : List Assembly) :
    ∀ (i0 : Nat) (r : SlotRef), r ∈ collectSlots i0 asms →
      ∃ i a, r.asmIdx = i0 + i ∧ asms[i]? = some a ∧
        ∃ s, a.info.dispatch_table[r.slotIdx]? = some s := by
  induction asms with
  | nil => intro i0 r h; simp [collectSlots] at h
  | cons b asms ih =>
    intro i0 r h
    rw [collectSlots] at h
    rcases List.mem_append.mp h with h | h
    · rcases collectAsmSlots_sound b.info.dispatch_table i0 0 r h with ⟨h1, j, s, h2, h3⟩
      refine ⟨0, b, by omega, by simp, s, ?_⟩
      rw [h2]
      simpa using h3
    · rcases ih (i0 + 1) r h with ⟨i, a, h1, h2, s, h3⟩
      exact ⟨i + 1, a, by omega, by simpa using h2, s, h3⟩

theorem collectNullSlots_valid (asms : List Assembly) :
    wlValid asms (collectNullSlots asms) := by
  intro r hr
  rcases collectSlots_sound asms 0 r hr with ⟨i, a, h1, h2, s, h3⟩
  refine ⟨s, ?_⟩
  unfold slotAt
  have : r.asmIdx = i := by omega
  rw [this, h2]
  exact h3

theorem collectAsmSlots_nil_of_nonnull (l : List ForeignSlot)
    (h : ∀ s ∈ l, s.ptr ≠ FnPtr.null) : ∀ (i j0 : Nat), collectAsmSlots i j0 l = [] := by
  induction l with
  | nil => intro i j0; rfl
  | cons a l ih =>
    intro i j0
    rw [collectAsmSlots, if_neg (h a (List.mem_cons_self _ _))]
    exact ih (fun s hs => h s (List.mem_cons_of_mem _ hs)) i (j0 + 1)

theorem collectAsmSlots_length (l : List ForeignSlot) :
    ∀ (i j0 : Nat), (collectAsmSlots i j0 l).length ≤ l.length := by
  induction l with
  | nil => intro i j0; simp [collectAsmSlots]
  | cons a l ih =>
    intro i j0
    rw [collectAsmSlots]
    by_cases hnull : a.ptr = FnPtr.null
    · rw [if_pos hnull]
      simpa using ih i (j0 + 1)
    · rw [if_neg hnull]
      simp only [List.nil_append, List.length_cons]
      exact Nat.le_succ_of_le (ih i (j0 + 1))

theorem collectSlots_length (asms : List Assembly) :
    ∀ (i0 : Nat), (collectSlots i0 asms).length ≤ totalSlots asms := by
  induction asms with
  | nil => intro i0; simp [collectSlots, totalSlots]
  | cons a asms ih =>
    intro i0
    rw [collectSlots]
    have h1 := collectAsmSlots_length a.info.dispatch_table i0 0
    have h2 := ih (i0 + 1)
    have h3 : totalSlots (a :: asms) = a.info.dispatch_table.length + totalSlots asms := by
      simp [totalSlots]
    rw [List.length_append, h3]
    omega

theorem sweep_nil (dt : DispatchTable) (asms : List Assembly) :
    sweep dt asms [] = (asms, .ok ([], false)) := rfl

theorem sweep_cons_none (dt : DispatchTable) (asms : List Assembly) (r : SlotRef)
    (rest : List SlotRef) (h : dt.get_fn r.prototype.name = none) :
    sweep dt asms (r :: rest) =
      ((sweep dt asms rest).1, (sweep dt asms rest).2.map fun pr => (r :: pr.1, pr.2)) := by
  simp only [sweep, h]

theorem sweep_cons_match (dt : DispatchTable) (asms : List Assembly) (r : SlotRef)
    (rest : List SlotRef) (fd : FunctionDefinition) (h : dt.get_fn r.prototype.name = some fd)
    (hsig : r.prototype.signature = fd.prototype.signature) :
    sweep dt asms (r :: rest) =
      ((sweep dt (writeSlot asms r.asmIdx r.slotIdx fd.fn_ptr) rest).1,
        (sweep dt (writeSlot asms r.asmIdx r.slotIdx fd.fn_ptr) rest).2.map
          fun pr => (pr.1, true)) := by
  simp only [sweep, h, if_pos hsig]

theorem sweep_cons_mismatch (dt : DispatchTable) (asms : List Assembly) (r : SlotRef)
    (rest : List SlotRef) (fd : FunctionDefinition) (h : dt.get_fn r.prototype.name = some fd)
    (hsig : ¬ r.prototype.signature = fd.prototype.signature) :
    sweep dt asms (r :: rest) =
      (asms, .error (.signatureMismatch r.prototype.name r.prototype fd.prototype)) := by
  simp only [sweep, h, if_neg hsig]

theorem sweep_length (dt : DispatchTable) :
    ∀ (wl : List SlotRef) (asms a : List Assembly) (failed : List SlotRef) (b : Bool),
      sweep dt asms wl = (a, .ok (failed, b)) →
      failed.length ≤ wl.length ∧ (b = true → failed.length < wl.length) := by
  intro wl
  induction wl with
  | nil =>
    intro asms a failed b h
    rw [sweep_nil] at h
    simp only [Prod.mk.injEq, Except.ok.injEq] at h
    obtain ⟨rfl, rfl, rfl⟩ := h
    exact ⟨Nat.le_refl _, by simp⟩
  | cons r rest ih =>
    intro asms a failed b h
    rcases hfd : dt.get_fn r.prototype.name with _ | fd
    · rw [sweep_cons_none dt asms r rest hfd] at h
      rcases hres : sweep dt asms rest with ⟨a1, res2⟩
      rw [hres] at h
      cases res2 with
      | error e => simp [Except.map] at h
      | ok pr =>
        rcases pr with ⟨f1, b1⟩
        simp only [Except.map, Prod.mk.injEq, Except.ok.injEq] at h
        obtain ⟨rfl, rfl, rfl⟩ := h
        obtain ⟨h1, h2⟩ := ih asms a1 f1 b1 hres
        refine ⟨by simpa using Nat.succ_le_succ h1, fun hb => ?_⟩
        have := h2 hb
        simp only [List.length_cons]
        omega
    · by_cases hsig : r.prototype.signature = fd.prototype.signature
      · rw [sweep_cons_match dt asms r rest fd hfd hsig] at h
        rcases hres : sweep dt (writeSlot asms r.asmIdx r.slotIdx fd.fn_ptr) rest with ⟨a1, res2⟩
        rw [hres] at h
        cases res2 with
        | error e => simp [Except.map] at h
        | ok pr =>
          rcases pr with ⟨f1, b1⟩
          simp only [Except.map, Prod.mk.injEq, Except.ok.injEq] at h
          obtain ⟨rfl, rfl, rfl⟩ := h
          obtain ⟨h1, _⟩ := ih _ a1 f1 b1 hres
          constructor
          · exact Nat.le_succ_of_le h1
          · intro _
            simp only [List.length_cons]
            omega
      · rw [sweep_cons_mismatch dt asms r rest fd hfd hsig] at h
        simp at h

theorem sweep_failed_sub (dt : DispatchTable) :
    ∀ (wl : List SlotRef) (asms a : List Assembly) (failed : List SlotRef) (b : Bool),
      sweep dt asms wl = (a, .ok (failed, b)) → ∀ x ∈ failed, x ∈ wl := by
  intro wl
  induction wl with
  | nil =>
    intro asms a failed b h
    rw [sweep_nil] at h
    simp only [Prod.mk.injEq, Except.ok.injEq] at h
    obtain ⟨rfl, rfl, rfl⟩ := h
    intro x hx
    cases hx
  | cons r rest ih =>
    intro asms a failed b h
    rcases hfd : dt.get_fn r.prototype.name with _ | fd
    · rw [sweep_cons_none dt asms r rest hfd] at h
      rcases hres : sweep dt asms rest with ⟨a1, res2⟩
      rw [hres] at h
      cases res2 with
      | error e => simp [Except.map] at h
      | ok pr =>
        rcases pr with ⟨f1, b1⟩
        simp only [Except.map, Prod.mk.injEq, Except.ok.injEq] at h
        obtain ⟨rfl, rfl, rfl⟩ := h
        intro x hx
        rcases List.mem_cons.mp hx with rfl | hx
        · exact List.mem_cons_self _ _
        · exact List.mem_cons_of_mem _ (ih asms a1 f1 b1 hres x hx)
    · by_cases hsig : r.prototype.signature = fd.prototype.signature
      · rw [sweep_cons_match dt asms r rest fd hfd hsig] at h
        rcases hres : sweep dt (writeSlot asms r.asmIdx r.slotIdx fd.fn_ptr) rest with ⟨a1, res2⟩
        rw [hres] at h
        cases res2 with
        | error e => simp [Except.map] at h
        | ok pr =>
          rcases pr with ⟨f1, b1⟩
          simp only [Except.map, Prod.mk.injEq, Except.ok.injEq] at h
          obtain ⟨rfl, rfl, rfl⟩ := h
          intro x hx
          exact List.mem_cons_of_mem _ (ih _ a1 f1 b1 hres x hx)
      · rw [sweep_cons_mismatch dt asms r rest fd hfd hsig] at h
        simp at h

theorem sweep_preserves_isSome (dt : DispatchTable) :
    ∀ (wl : List SlotRef) (asms : List Assembly) (i j : Nat),
      (slotAt (sweep dt asms wl).1 i j).isSome = (slotAt asms i j).isSome := by
  intro wl
  induction wl with
  | nil => intro asms i j; rfl
  | cons r rest ih =>
    intro asms i j
    rcases hfd : dt.get_fn r.prototype.name with _ | fd
    · rw [sweep_cons_none dt asms r rest hfd]
      exact ih asms i j
    · by_cases hsig : r.prototype.signature = fd.prototype.signature
      · rw [sweep_cons_match dt asms r rest fd hfd hsig]
        have h1 := ih (writeSlot asms r.asmIdx r.slotIdx fd.fn_ptr) i j
        rw [slotAt_writeSlot_isSome] at h1
        exact h1
      · rw [sweep_cons_mismatch dt asms r rest fd hfd hsig]

theorem sweep_slot_evolution (dt : DispatchTable) (hdt : tableGood dt) :
    ∀ (wl : List SlotRef) (asms : List Assembly) (i j : Nat),
      slotAt (sweep dt asms wl).1 i j = slotAt asms i j ∨
      ∃ s p, slotAt asms i j = some s ∧
        slotAt (sweep dt asms wl).1 i j = some { s with ptr := p } ∧ p ≠ FnPtr.null := by
  intro wl
  induction wl with
  | nil => intro asms i j; exact Or.inl rfl
  | cons r rest ih =>
    intro asms i j
    rcases hfd : dt.get_fn r.prototype.name with _ | fd
    · rw [sweep_cons_none dt asms r rest hfd]
      exact ih asms i j
    · by_cases hsig : r.prototype.signature = fd.prototype.signature
      · rw [sweep_cons_match dt asms r rest fd hfd hsig]
        have hp : fd.fn_ptr ≠ FnPtr.null := hdt _ _ hfd
        by_cases hw : r.asmIdx = i ∧ r.slotIdx = j
        · obtain ⟨h1, h2⟩ := hw
          subst h1
          subst h2
          have hws := slotAt_writeSlot_self asms r.asmIdx r.slotIdx fd.fn_ptr
          cases hslot : slotAt asms r.asmIdx r.slotIdx with
          | none =>
            rw [hslot] at hws
            simp only [Option.map_none'] at hws
            rcases ih (writeSlot asms r.asmIdx r.slotIdx fd.fn_ptr) r.asmIdx r.slotIdx with
              hev | ⟨s1, p1, hs1, _, _⟩
            · rw [hws] at hev
              exact Or.inl hev
            · rw [hws] at hs1
              cases hs1
          | some s =>
            rw [hslot] at hws
            simp only [Option.map_some'] at hws
            rcases ih (writeSlot asms r.asmIdx r.slotIdx fd.fn_ptr) r.asmIdx r.slotIdx with
              hev | ⟨s1, p1, hs1, hfin, hp1⟩
            · rw [hws] at hev
              exact Or.inr ⟨s, fd.fn_ptr, rfl, hev, hp⟩
            · rw [hws] at hs1
              simp only [Option.some.injEq] at hs1
              subst hs1
              rw [ForeignSlot.ptr_update_update] at hfin
              exact Or.inr ⟨s, p1, rfl, hfin, hp1⟩
        · have hne : r.asmIdx ≠ i ∨ r.slotIdx ≠ j := by
            rcases Decidable.not_and_iff_or_not.mp hw with h | h
            · exact Or.inl h
            · exact Or.inr h
          have hws := slotAt_writeSlot_ne asms r.asmIdx r.slotIdx i j fd.fn_ptr hne
          rcases ih (writeSlot asms r.asmIdx r.slotIdx fd.fn_ptr) i j with hev | ⟨s1, p1, hs1, hfin, hp1⟩
          · rw [hws] at hev
            exact Or.inl hev
          · rw [hws] at hs1
            exact Or.inr ⟨s1, p1, hs1, hfin, hp1⟩
      · rw [sweep_cons_mismatch dt asms r rest fd hfd hsig]
        exact Or.inl rfl

theorem sweep_tracks (dt : DispatchTable) (hdt : tableGood dt) :
    ∀ (wl : List SlotRef) (asms a : List Assembly) (failed : List SlotRef) (b : Bool),
      wlValid asms wl → sweep dt asms wl = (a, .ok (failed, b)) →
      ∀ r ∈ wl, r ∈ failed ∨
        ∃ s, slotAt a r.asmIdx r.slotIdx = some s ∧ s.ptr ≠ FnPtr.null := by
  intro wl
  induction wl with
  | nil =>
    intro asms a failed b _ _ r hr
    cases hr
  | cons r0 rest ih =>
    intro asms a failed b hv h r hr
    rcases hfd : dt.get_fn r0.prototype.name with _ | fd
    · rw [sweep_cons_none dt asms r0 rest hfd] at h
      rcases hres : sweep dt asms rest with ⟨a1, res2⟩
      rw [hres] at h
      cases res2 with
      | error e => simp [Except.map] at h
      | ok pr =>
        rcases pr with ⟨f1, b1⟩
        simp only [Except.map, Prod.mk.injEq, Except.ok.injEq] at h
        obtain ⟨rfl, rfl, rfl⟩ := h
        rcases List.mem_cons.mp hr with rfl | hr'
        · exact Or.inl (List.mem_cons_self _ _)
        · have hv' : wlValid asms rest := fun x hx => hv x (List.mem_cons_of_mem _ hx)
          rcases ih asms a1 f1 b1 hv' hres r hr' with hin | hok
          · exact Or.inl (List.mem_cons_of_mem _ hin)
          · exact Or.inr hok
    · by_cases hsig : r0.prototype.signature = fd.prototype.signature
      · rw [sweep_cons_match dt asms r0 rest fd hfd hsig] at h
        rcases hres : sweep dt (writeSlot asms r0.asmIdx r0.slotIdx fd.fn_ptr) rest with ⟨a1, res2⟩
        rw [hres] at h
        cases res2 with
        | error e => simp [Except.map] at h
        | ok pr =>
          rcases pr with ⟨f1, b1⟩
          simp only [Except.map, Prod.mk.injEq, Except.ok.injEq] at h
          obtain ⟨rfl, rfl, rfl⟩ := h
          rcases List.mem_cons.mp hr with rfl | hr'
          · obtain ⟨s0, hs0⟩ := hv r (List.mem_cons_self _ _)
            have hws := slotAt_writeSlot_self asms r.asmIdx r.slotIdx fd.fn_ptr
            rw [hs0] at hws
            simp only [Option.map_some'] at hws
            have hp : fd.fn_ptr ≠ FnPtr.null := hdt _ _ hfd
            have hev := sweep_slot_evolution dt hdt rest
              (writeSlot asms r.asmIdx r.slotIdx fd.fn_ptr) r.asmIdx r.slotIdx
            rw [hres] at hev
            rcases hev with hev | ⟨s1, p1, _, hfin, hp1⟩
            · refine Or.inr ⟨{ s0 with ptr := fd.fn_ptr }, ?_, hp⟩
              rw [hev, hws]
            · exact Or.inr ⟨{ s1 with ptr := p1 }, hfin, hp1⟩
          · have hv' : wlValid (writeSlot asms r0.asmIdx r0.slotIdx fd.fn_ptr) rest := by
              intro x hx
              obtain ⟨s, hs⟩ := hv x (List.mem_cons_of_mem _ hx)
              have hi := slotAt_writeSlot_isSome asms r0.asmIdx r0.slotIdx fd.fn_ptr
                x.asmIdx x.slotIdx
              rw [hs] at hi
              simp only [Option.isSome_some] at hi
              exact Option.isSome_iff_exists.mp hi
            rcases ih _ a1 f1 b1 hv' hres r hr' with hin | hok
            · exact Or.inl hin
            · exact Or.inr hok
      · rw [sweep_cons_mismatch dt asms r0 rest fd hfd hsig] at h
        simp at h

theorem sweep_wlValid (dt : DispatchTable) (wl : List SlotRef) (asms a : List Assembly)
    (failed : List SlotRef) (b : Bool) (hv : wlValid asms wl)
    (h : sweep dt asms wl = (a, .ok (failed, b))) : wlValid a failed := by
  intro r hr
  have hx := sweep_failed_sub dt wl asms a failed b h r hr
  obtain ⟨s, hs⟩ := hv r hx
  have hiso := sweep_preserves_isSome dt wl asms r.asmIdx r.slotIdx
  rw [h, hs] at hiso
  simp only [Option.isSome_some] at hiso
  exact Option.isSome_iff_exists.mp hiso

theorem sweep_nullCovered (dt : DispatchTable) (hdt : tableGood dt) (wl : List SlotRef)
    (asms a : List Assembly) (failed : List SlotRef) (b : Bool)
    (hv : wlValid asms wl) (hc : nullCovered asms wl)
    (h : sweep dt asms wl = (a, .ok (failed, b))) : nullCovered a failed := by
  intro i j s' hs' hnull
  have hev := sweep_slot_evolution dt hdt wl asms i j
  rw [h] at hev
  rcases hev with hev | ⟨s0, p, _, hfin, hp⟩
  · have hs : slotAt asms i j = some s' := by rw [← hev]; exact hs'
    obtain ⟨p, hin⟩ := hc i j s' hs hnull
    have htr := sweep_tracks dt hdt wl asms a failed b hv h ⟨i, j, p⟩ hin
    rcases htr with htr | ⟨s1, hs1, hns1⟩
    · exact ⟨p, htr⟩
    · rw [hs'] at hs1
      cases hs1
      exact absurd hnull hns1
  · rw [hs'] at hfin
    have : s' = { s0 with ptr := p } := by cases hfin; rfl
    subst this
    exact absurd hnull hp

theorem sweep_map_legacy (dt : DispatchTable) :
    ∀ (wl : List SlotRef) (asms : List Assembly),
      ((sweep dt asms wl).1).map (fun x => x.legacy_libs) =
        asms.map fun x => x.legacy_libs := by
  intro wl
  induction wl with
  | nil => intro asms; rfl
  | cons r rest ih =>
    intro asms
    rcases hfd : dt.get_fn r.prototype.name with _ | fd
    · rw [sweep_cons_none dt asms r rest hfd]
      exact ih asms
    · by_cases hsig : r.prototype.signature = fd.prototype.signature
      · rw [sweep_cons_match dt asms r rest fd hfd hsig]
        rw [ih (writeSlot asms r.asmIdx r.slotIdx fd.fn_ptr)]
        unfold writeSlot
        apply setNth_map_inv
        intro x
        rfl
      · rw [sweep_cons_mismatch dt asms r rest fd hfd hsig]

theorem sweep_mismatch (dt : DispatchTable) :
    ∀ (wl : List SlotRef) (asms : List Assembly) (r : SlotRef) (fd : FunctionDefinition),
      r ∈ wl → dt.get_fn r.prototype.name = some fd →
      fd.prototype.signature ≠ r.prototype.signature →
      ∃ r' fd', r' ∈ wl ∧ dt.get_fn r'.prototype.name = some fd' ∧
        fd'.prototype.signature ≠ r'.prototype.signature ∧
        (sweep dt asms wl).2 =
          .error (.signatureMismatch r'.prototype.name r'.prototype fd'.prototype) := by
  intro wl
  induction wl with
  | nil => intro asms r fd h; cases h
  | cons r0 rest ih =>
    intro asms r fd hr hfd hne
    rcases hfd0 : dt.get_fn r0.prototype.name with _ | fd0
    · have hr' : r ∈ rest := by
        rcases List.mem_cons.mp hr with rfl | hr'
        · rw [hfd0] at hfd
          cases hfd
        · exact hr'
      obtain ⟨r', fd', hmem, h1, h2, h3⟩ := ih asms r fd hr' hfd hne
      refine ⟨r', fd', List.mem_cons_of_mem _ hmem, h1, h2, ?_⟩
      rw [sweep_cons_none dt asms r0 rest hfd0]
      show (sweep dt asms rest).2.map _ = _
      rw [h3]
      rfl
    · by_cases hsig : r0.prototype.signature = fd0.prototype.signature
      · have hr' : r ∈ rest := by
          rcases List.mem_cons.mp hr with rfl | hr'
          · rw [hfd0] at hfd
            cases hfd
            exact absurd hsig.symm hne
          · exact hr'
        obtain ⟨r', fd', hmem, h1, h2, h3⟩ :=
          ih (writeSlot asms r0.asmIdx r0.slotIdx fd0.fn_ptr) r fd hr' hfd hne
        refine ⟨r', fd', List.mem_cons_of_mem _ hmem, h1, h2, ?_⟩
        rw [sweep_cons_match dt asms r0 rest fd0 hfd0 hsig]
        show (sweep dt _ rest).2.map _ = _
        rw [h3]
        rfl
      · exact ⟨r0, fd0, List.mem_cons_self _ _, hfd0, fun hh => hsig hh.symm,
          by rw [sweep_cons_mismatch dt asms r0 rest fd0 hfd0 hsig]⟩

theorem linkLoop_zero (dt : DispatchTable) (asms : List Assembly) (wl : List SlotRef) :
    linkLoop dt 0 asms wl = (asms, 0, .ok wl) := rfl

theorem linkLoop_succ_error (dt : DispatchTable) (fuel : Nat) (asms : List Assembly)
    (wl : List SlotRef) (a : List Assembly) (e : RuntimeError)
    (h : sweep dt asms wl = (a, .error e)) :
    linkLoop dt (fuel + 1) asms wl = (a, 1, .error e) := by
  simp only [linkLoop, h]

theorem linkLoop_succ_retry (dt : DispatchTable) (fuel : Nat) (asms : List Assembly)
    (wl : List SlotRef) (a : List Assembly) (failed : List SlotRef)
    (h : sweep dt asms wl = (a, .ok (failed, true))) :
    linkLoop dt (fuel + 1) asms wl =
      ((linkLoop dt fuel a failed).1, (linkLoop dt fuel a failed).2.1 + 1,
        (linkLoop dt fuel a failed).2.2) := by
  simp only [linkLoop, h, if_true]

theorem linkLoop_succ_stop (dt : DispatchTable) (fuel : Nat) (asms : List Assembly)
    (wl : List SlotRef) (a : List Assembly) (failed : List SlotRef)
    (h : sweep dt asms wl = (a, .ok (failed, false))) :
    linkLoop dt (fuel + 1) asms wl = (a, 1, .ok failed) := by
  simp [linkLoop, h]

theorem linkLoop_nullCovered (dt : DispatchTable) (hdt : tableGood dt) :
    ∀ (fuel : Nat) (asms : List Assembly) (wl : List SlotRef) (a : List Assembly) (k : Nat)
      (rem : List SlotRef), wlValid asms wl → nullCovered asms wl →
      linkLoop dt fuel asms wl = (a, k, .ok rem) → nullCovered a rem := by
  intro fuel
  induction fuel with
  | zero =>
    intro asms wl a k rem _ hc h
    rw [linkLoop_zero] at h
    simp only [Prod.mk.injEq, Except.ok.injEq] at h
    obtain ⟨rfl, _, rfl⟩ := h
    exact hc
  | succ fuel ih =>
    intro asms wl a k rem hv hc h
    rcases hsw : sweep dt asms wl with ⟨a1, res⟩
    cases res with
    | error e =>
      rw [linkLoop_succ_error dt fuel asms wl a1 e hsw] at h
      simp at h
    | ok pr =>
      rcases pr with ⟨failed, r⟩
      cases r with
      | false =>
        rw [linkLoop_succ_stop dt fuel asms wl a1 failed hsw] at h
        simp only [Prod.mk.injEq, Except.ok.injEq] at h
        obtain ⟨rfl, _, rfl⟩ := h
        exact sweep_nullCovered dt hdt wl asms a1 failed false hv hc hsw
      | true =>
        rw [linkLoop_succ_retry dt fuel asms wl a1 failed hsw] at h
        rcases hl : linkLoop dt fuel a1 failed with ⟨a2, k2, res2⟩
        rw [hl] at h
        cases res2 with
        | error e => simp at h
        | ok rem2 =>
          simp only [Prod.mk.injEq, Except.ok.injEq] at h
          obtain ⟨rfl, _, rfl⟩ := h
          have hv1 := sweep_wlValid dt wl asms a1 failed true hv hsw
          have hc1 := sweep_nullCovered dt hdt wl asms a1 failed true hv hc hsw
          exact ih a1 failed a2 k2 rem2 hv1 hc1 hl

theorem linkLoop_count_le (dt : DispatchTable) :
    ∀ (fuel : Nat) (asms : List Assembly) (wl : List SlotRef),
      (linkLoop dt fuel asms wl).2.1 ≤ wl.length + 1 := by
  intro fuel
  induction fuel with
  | zero => intro asms wl; simp [linkLoop_zero]
  | succ fuel ih =>
    intro asms wl
    rcases hsw : sweep dt asms wl with ⟨a1, res⟩
    cases res with
    | error e =>
      rw [linkLoop_succ_error dt fuel asms wl a1 e hsw]
      show 1 ≤ wl.length + 1
      omega
    | ok pr =>
      rcases pr with ⟨failed, r⟩
      cases r with
      | false =>
        rw [linkLoop_succ_stop dt fuel asms wl a1 failed hsw]
        show 1 ≤ wl.length + 1
        omega
      | true =>
        rw [linkLoop_succ_retry dt fuel asms wl a1 failed hsw]
        have h1 := ih a1 failed
        have h2 := (sweep_length dt wl asms a1 failed true hsw).2 rfl
        show (linkLoop dt fuel a1 failed).2.1 + 1 ≤ wl.length + 1
        omega

theorem linkLoop_fuel_congr (dt : DispatchTable) :
    ∀ (f1 f2 : Nat) (asms : List Assembly) (wl : List SlotRef),
      wl.length < f1 → wl.length < f2 →
      linkLoop dt f1 asms wl = linkLoop dt f2 asms wl := by
  intro f1
  induction f1 with
  | zero => intro f2 asms wl h1 _; exact absurd h1 (Nat.not_lt_zero _)
  | succ f1 ih =>
    intro f2 asms wl h1 h2
    cases f2 with
    | zero => exact absurd h2 (Nat.not_lt_zero _)
    | succ f2 =>
      rcases hsw : sweep dt asms wl with ⟨a1, res⟩
      cases res with
      | error e =>
        rw [linkLoop_succ_error dt f1 asms wl a1 e hsw,
          linkLoop_succ_error dt f2 asms wl a1 e hsw]
      | ok pr =>
        rcases pr with ⟨failed, r⟩
        cases r with
        | false =>
          rw [linkLoop_succ_stop dt f1 asms wl a1 failed hsw,
            linkLoop_succ_stop dt f2 asms wl a1 failed hsw]
        | true =>
          rw [linkLoop_succ_retry dt f1 asms wl a1 failed hsw,
            linkLoop_succ_retry dt f2 asms wl a1 failed hsw]
          have hlt := (sweep_length dt wl asms a1 failed true hsw).2 rfl
          rw [ih f2 a1 failed (by omega) (by omega)]

theorem linkLoop_map_legacy (dt : DispatchTable) :
    ∀ (fuel : Nat) (asms : List Assembly) (wl : List SlotRef),
      ((linkLoop dt fuel asms wl).1).map (fun x => x.legacy_libs) =
        asms.map fun x => x.legacy_libs := by
  intro fuel
  induction fuel with
  | zero => intro asms wl; rfl
  | succ fuel ih =>
    intro asms wl
    rcases hsw : sweep dt asms wl with ⟨a1, res⟩
    have hmap : a1.map (fun x => x.legacy_libs) = asms.map fun x => x.legacy_libs := by
      have := sweep_map_legacy dt wl asms
      rw [hsw] at this
      exact this
    cases res with
    | error e =>
      rw [linkLoop_succ_error dt fuel asms wl a1 e hsw]
      exact hmap
    | ok pr =>
      rcases pr with ⟨failed, r⟩
      cases r with
      | false =>
        rw [linkLoop_succ_stop dt fuel asms wl a1 failed hsw]
        exact hmap
      | true =>
        rw [linkLoop_succ_retry dt fuel asms wl a1 failed hsw]
        show ((linkLoop dt fuel a1 failed).1).map _ = _
        rw [ih a1 failed]
        exact hmap

theorem mem_idx {α : Type _} {l : List α} {x : α} (h : x ∈ l) : ∃ i : Nat, l[i]? = some x := by
  induction l with
  | nil => cases h
  | cons b l ih =>
    rcases List.mem_cons.mp h with rfl | h'
    · exact ⟨0, by simp⟩
    · obtain ⟨i, hi⟩ := ih h'
      exact ⟨i + 1, by simpa using hi⟩

theorem get_fn_foldl_insert (fs : List FunctionDefinition) :
    ∀ (t : DispatchTable) (n : String),
      (fs.foldl (fun t f => t.insert_fn f.prototype.name f) t).get_fn n =
        (exportsLookup n fs).elim (t.get_fn n) some := by
  induction fs with
  | nil => intro t n; rfl
  | cons f fs ih =>
    intro t n
    rw [List.foldl_cons, ih]
    cases hx : exportsLookup n fs with
    | some g => simp [exportsLookup, hx]
    | none =>
      by_cases h : n = f.prototype.name
      · subst h
        simp [exportsLookup, hx, get_fn_insert]
      · have hb : (f.prototype.name == n) = false := by
          simp only [beq_eq_false_iff_ne, ne_eq]
          exact fun hh => h hh.symm
        simp [exportsLookup, hx, get_fn_insert, h, hb]

theorem link_all_no_null (asms : List Assembly) (T : DispatchTable)
    (h : collectNullSlots asms = []) :
    Assembly.link_all asms T = (asms, .ok (insertAllExports asms T)) := by
  simp only [Assembly.link_all, h]
  rfl

theorem load_ok_inv (fs : FileSystem) (path : String) (gc : Nat) (na : Assembly)
    (h : (Assembly.load fs path gc).1 = .ok na) : na.legacy_libs = [] := by
  unfold Assembly.load at h
  rcases hfs : fs path with _ | m
  · rw [hfs] at h
    simp at h
  · rw [hfs] at h
    simp only [] at h
    split at h
    · simp at h
    · simp only [Except.ok.injEq] at h
      rw [← h]

theorem link_legacy (a : Assembly) (t : DispatchTable) :
    (Assembly.link a t).1.legacy_libs = a.legacy_libs := by
  have hmap := linkLoop_map_legacy (insertExports a t)
    ((collectNullSlots [a]).length + 1) [a] (collectNullSlots [a])
  rcases hl : linkLoop (insertExports a t)
      ((collectNullSlots [a]).length + 1) [a] (collectNullSlots [a]) with ⟨asms, k, res⟩
  rw [hl] at hmap
  have hhead : (asms.headD a).legacy_libs = a.legacy_libs := by
    cases asms with
    | nil => simp at hmap
    | cons b rest =>
      simp only [List.map_cons, List.map_nil, List.cons.injEq] at hmap
      simpa using hmap.1
  simp only [Assembly.link]
  rw [hl]
  cases res with
  | error e => exact hhead
  | ok rem =>
    dsimp only
    split <;> exact hhead

/-- C6: for every library path and GC handle, `Assembly::load` returns an
error reporting both the expected and the found version whenever the
module's declared ABI version differs from the runtime's compiled-in ABI
version, and in that case no `Assembly` is constructed and the module file
is returned untouched — in particular the allocator handle is not
installed. -/
theorem load_abi_mismatch_reports_versions_untouched
    (fs : FileSystem) (path : String) (gc : Nat) (m : ModuleFile)
    (hm : fs path = some m) (hv : m.abi_version ≠ ABI_VERSION) :
    Assembly.load fs path gc = (.error (.abiMismatch ABI_VERSION m.abi_version), some m) := by
  have hv' : ABI_VERSION ≠ m.abi_version := fun hh => hv hh.symm
  simp [Assembly.load, hm, hv']

/-- Witness for C6 at the concrete version-7 module. -/
theorem load_abi_mismatch_reports_versions_untouched_witness :
    Assembly.load fs_c6 "m" 5 =
      (.error (.abiMismatch ABI_VERSION mf_c6.abi_version), some mf_c6) :=
  load_abi_mismatch_reports_versions_untouched fs_c6 "m" 5 mf_c6 (by decide) (by decide)

/-- C3: whenever `link_all` returns an error, the caller's dispatch table
is unchanged — all mutation happened on a duplicate that is discarded
(the error value carries no table), so no caller ever observes a partially
updated table. -/
theorem link_all_error_leaves_caller_table (s : LinkState) (e : RuntimeError)
    (_h : (linkAllCall s).2 = .error e) :
    (linkAllCall s).1.table = s.table ∧
    ∀ n, ((linkAllCall s).1.table).get_fn n = s.table.get_fn n :=
  ⟨rfl, fun _ => rfl⟩

/-- Witness for C3 at a concrete erroring `link_all` call (missing
dependency `h`). -/
theorem link_all_error_leaves_caller_table_witness :
    (linkAllCall st_c3).1.table = st_c3.table :=
  (link_all_error_leaves_caller_table st_c3 .missingDependencies rfl).1

/-- C2 counterexample: a swap whose step-5 linking fails (the replacement's
slot for `g` is unresolvable) does not leave the original assembly and
table unchanged: the source discards the `link` result, the swap returns
`ok`, the original's export `fold` is gone from the live table and the
assembly identity has been replaced. -/
theorem swap_link_failure_not_rolled_back_cex :
    (Assembly.link (⟨"p2", 3, [], mf_c2.info, 7⟩ : Assembly) (T_c2.remove_fn "fold")).2.2 =
      .error .missingDependencies ∧
    Assembly.swap fs_c2 (fun _ _ => []) asmA_c2 "p2" T_c2 =
      ((⟨"p2", 3, [], mf_c2.info, 7⟩ : Assembly), (⟨[]⟩ : DispatchTable), .ok ()) ∧
    (T_c2.get_fn "fold").isSome = true ∧
    ((Assembly.swap fs_c2 (fun _ _ => []) asmA_c2 "p2" T_c2).2.1).get_fn "fold" = none ∧
    (Assembly.swap fs_c2 (fun _ _ => []) asmA_c2 "p2" T_c2).1.library ≠ asmA_c2.library := by
  refine ⟨rfl, rfl, rfl, rfl, by decide⟩

/-- C2 amended: a failure in step 1 (loading the replacement) leaves the
original assembly and the caller's dispatch table unchanged and is the
only failure `swap` reports; once loading succeeds, `swap` returns `ok`
unconditionally — the step-5 linking result is discarded by the source, so
a step-5 linking failure does not abort the swap and does not restore the
original assembly or its dispatch-table entries. -/
theorem swap_failure_semantics_amended (fs : FileSystem)
    (mm : List TypeInfo → List TypeInfo → List Nat) (self : Assembly) (path : String)
    (T : DispatchTable) :
    (∀ e, (Assembly.load fs path self.allocator).1 = .error e →
      Assembly.swap fs mm self path T = (self, T, .error e)) ∧
    (∀ na, (Assembly.load fs path self.allocator).1 = .ok na →
      (Assembly.swap fs mm self path T).2.2 = .ok ()) := by
  constructor
  · intro e h
    unfold Assembly.swap
    rw [h]
  · intro na h
    unfold Assembly.swap
    rw [h]

/-- Witness for C2's amended claim: a missing file aborts the swap with the
load error and returns the original assembly and table unchanged. -/
theorem swap_failure_semantics_amended_witness :
    Assembly.swap (fun _ => none) (fun _ _ => []) asmA_c2 "x" T_c2 =
      (asmA_c2, T_c2, .error (.loadError "x")) :=
  (swap_failure_semantics_amended (fun _ => none) (fun _ _ => []) asmA_c2 "x" T_c2).1
    (.loadError "x") rfl

/-- C10: when `link_all` aborts with a signature-mismatch error partway
through a sweep, the foreign-code-table slots already resolved earlier in
that call keep their newly written pointers: here slot 0 (for `g`) of the
input assembly was null, is `code 2 5` in the returned assemblies, and the
call still fails on slot 1 (`f`), whose slot stays null — the writes are
not rolled back even though the duplicated table is discarded. -/
theorem link_all_error_keeps_partial_slot_writes :
    slotAt [asmB_c10] 0 0 = some ⟨.null, protoG⟩ ∧
    (Assembly.link_all [asmB_c10] T_c10).2 =
      .error (.signatureMismatch "f" protoF ⟨"f", sigB⟩) ∧
    slotAt (Assembly.link_all [asmB_c10] T_c10).1 0 0 = some ⟨.code 2 5, protoG⟩ ∧
    slotAt (Assembly.link_all [asmB_c10] T_c10).1 0 1 = some ⟨.null, protoF⟩ := by
  refine ⟨rfl, rfl, rfl, rfl⟩

/-- C1 (evaluating the code at the failing input): after `link_all`
resolves B's call site for `f` to `code 1 0` (inside A's library 1),
swapping A for a replacement that does not export `f`, with zero orphaned
objects, completes successfully, never touches B's foreign code table —
the slot still holds `code 1 0` rather than reverting to null — while
library 1 is no longer among the resident libraries: B is left holding a
pointer into unloaded native code. -/
theorem swap_leaves_stale_foreign_slot :
    Assembly.link_all [asmA_c1, asmB_c1] ⟨[]⟩ = ([asmA_c1, asmB_c1_linked], .ok dt_c1) ∧
    Assembly.swap fs_c1 (fun _ _ => []) asmA_c1 "a2" dt_c1 =
      (newA_c1, (⟨[]⟩ : DispatchTable), .ok ()) ∧
    asmB_c1_linked.info.dispatch_table = [⟨.code 1 0, protoF⟩] ∧
    liveLibs [newA_c1, asmB_c1_linked] = [3, 2] ∧
    (1 : Nat) ∉ liveLibs [newA_c1, asmB_c1_linked] := by
  refine ⟨rfl, rfl, rfl, rfl, by decide⟩

/-- C9: linking a single assembly with no unresolved foreign slots succeeds
and returns the base table extended with every export of the assembly —
last insert for a name wins, and names the assembly does not export keep
their base-table entry. -/
theorem link_all_fully_linked_single_extends_table (A : Assembly) (T : DispatchTable)
    (h : ∀ s ∈ A.info.dispatch_table, s.ptr ≠ FnPtr.null) :
    (Assembly.link_all [A] T).2 = .ok (insertExports A T) ∧
    ∀ n, (insertExports A T).get_fn n =
      (exportsLookup n A.info.functions).elim (T.get_fn n) some := by
  have hwl : collectNullSlots [A] = [] := by
    show collectSlots 0 [A] = []
    rw [collectSlots, collectAsmSlots_nil_of_nonnull _ h 0 0]
    rfl
  constructor
  · rw [link_all_no_null [A] T hwl]
    rfl
  · intro n
    exact get_fn_foldl_insert A.info.functions T n

/-- Witness for C9 at a concrete fully linked assembly, with the lookup
characterization instantiated at name `g`. -/
theorem link_all_fully_linked_single_extends_table_witness :
    (Assembly.link_all [asmA_c9] T_c9).2 = .ok (insertExports asmA_c9 T_c9) ∧
    (insertExports asmA_c9 T_c9).get_fn "g" =
      (exportsLookup "g" asmA_c9.info.functions).elim (T_c9.get_fn "g") some :=
  ⟨(link_all_fully_linked_single_extends_table asmA_c9 T_c9 (by decide)).1,
   (link_all_fully_linked_single_extends_table asmA_c9 T_c9 (by decide)).2 "g"⟩

/-- C5: if some unresolved foreign slot's name is present in the
(export-extended) dispatch table with a different signature, `link_all`
fails with a signature-mismatch error naming a mismatching slot's function
and both prototypes; the error is raised during the very first sweep
(`link_all_sweeps = 1`), never deferred, and no table is returned. -/
theorem link_all_signature_mismatch_fails_first_sweep
    (asms : List Assembly) (T : DispatchTable) (r : SlotRef) (fd : FunctionDefinition)
    (hmem : r ∈ collectNullSlots asms)
    (hfd : (insertAllExports asms T).get_fn r.prototype.name = some fd)
    (hsig : fd.prototype.signature ≠ r.prototype.signature) :
    (∃ r' fd', r' ∈ collectNullSlots asms ∧
      (insertAllExports asms T).get_fn r'.prototype.name = some fd' ∧
      fd'.prototype.signature ≠ r'.prototype.signature ∧
      (Assembly.link_all asms T).2 =
        .error (.signatureMismatch r'.prototype.name r'.prototype fd'.prototype)) ∧
    isSignatureMismatchB (Assembly.link_all asms T).2 = true ∧
    link_all_sweeps asms T = 1 := by
  obtain ⟨r', fd', hmem', hfd', hsig', herr⟩ :=
    sweep_mismatch (insertAllExports asms T) (collectNullSlots asms) asms r fd hmem hfd hsig
  rcases hsw : sweep (insertAllExports asms T) asms (collectNullSlots asms) with ⟨a1, res⟩
  rw [hsw] at herr
  have herr' : res = .error (.signatureMismatch r'.prototype.name r'.prototype fd'.prototype) :=
    herr
  subst herr'
  have hloop := linkLoop_succ_error (insertAllExports asms T) (collectNullSlots asms).length
    asms (collectNullSlots asms) a1 _ hsw
  refine ⟨⟨r', fd', hmem', hfd', hsig', ?_⟩, ?_, ?_⟩
  · simp only [Assembly.link_all]
    rw [hloop]
  · simp only [Assembly.link_all]
    rw [hloop]
    rfl
  · simp only [link_all_sweeps]
    rw [hloop]

/-- Witness for C5 at a concrete slot expecting `f : (Circle) -> f64`
against a table exporting `f : (Circle) -> f32`. -/
theorem link_all_signature_mismatch_fails_first_sweep_witness :
    isSignatureMismatchB (Assembly.link_all [asmB_c5] T_c5).2 = true ∧
    link_all_sweeps [asmB_c5] T_c5 = 1 :=
  ⟨(link_all_signature_mismatch_fails_first_sweep [asmB_c5] T_c5 ⟨0, 0, protoF⟩
      ⟨⟨"f", sigB⟩, .code 9 9⟩ (by decide) rfl (by decide)).2.1,
   (link_all_signature_mismatch_fails_first_sweep [asmB_c5] T_c5 ⟨0, 0, protoF⟩
      ⟨⟨"f", sigB⟩, .code 9 9⟩ (by decide) rfl (by decide)).2.2⟩

/-- C8 counterexample: a batch with exactly one (resolvable) foreign slot
makes the `while retry` loop execute two sweeps — one that resolves the
slot and a final one that observes no further progress — exceeding the
claimed bound of `N = 1` sweeps. -/
theorem link_all_sweep_count_exceeds_slots_cex :
    totalSlots [asmA_c8] = 1 ∧ link_all_sweeps [asmA_c8] T_c8 = 2 ∧
    ¬ link_all_sweeps [asmA_c8] T_c8 ≤ totalSlots [asmA_c8] := by
  refine ⟨rfl, rfl, by decide⟩

/-- C8 amended: the outstanding-slot count is non-increasing from one sweep
to the next; for `N` total foreign-code-table slots the loop executes at
most `N + 1` sweeps (at most `N` sweeps make progress, plus the final sweep
that observes none); and any fuel beyond `worklist length + 1` leaves the
loop's behaviour unchanged — the loop genuinely terminates within that
bound. -/
theorem link_all_sweeps_bound_amended :
    (∀ (dt : DispatchTable) (wl : List SlotRef) (asms a : List Assembly)
        (failed : List SlotRef) (b : Bool),
      sweep dt asms wl = (a, .ok (failed, b)) → failed.length ≤ wl.length) ∧
    (∀ (asms : List Assembly) (T : DispatchTable),
      link_all_sweeps asms T ≤ totalSlots asms + 1) ∧
    (∀ (dt : DispatchTable) (fuel : Nat) (asms : List Assembly) (wl : List SlotRef),
      wl.length < fuel →
      linkLoop dt fuel asms wl = linkLoop dt (wl.length + 1) asms wl) := by
  refine ⟨?_, ?_, ?_⟩
  · intro dt wl asms a failed b h
    exact (sweep_length dt wl asms a failed b h).1
  · intro asms T
    have h1 := linkLoop_count_le (insertAllExports asms T)
      ((collectNullSlots asms).length + 1) asms (collectNullSlots asms)
    have h2 : (collectNullSlots asms).length ≤ totalSlots asms := collectSlots_length asms 0
    simp only [link_all_sweeps]
    omega
  · intro dt fuel asms wl h
    exact linkLoop_fuel_congr dt fuel (wl.length + 1) asms wl h (by omega)

/-- Witness for C8's amended claim at concrete inputs. -/
theorem link_all_sweeps_bound_amended_witness :
    ([] : List SlotRef).length ≤ ([] : List SlotRef).length ∧
    link_all_sweeps [] ⟨[]⟩ ≤ totalSlots [] + 1 ∧
    linkLoop ⟨[]⟩ 5 [] [] = linkLoop ⟨[]⟩ (([] : List SlotRef).length + 1) [] [] :=
  ⟨link_all_sweeps_bound_amended.1 ⟨[]⟩ [] [] [] [] false rfl,
   link_all_sweeps_bound_amended.2.1 [] ⟨[]⟩,
   link_all_sweeps_bound_amended.2.2 ⟨[]⟩ 5 [] [] (by decide)⟩

theorem swap_ok_char (fs : FileSystem) (mm : List TypeInfo → List TypeInfo → List Nat)
    (self : Assembly) (path : String) (T : DispatchTable) (na : Assembly)
    (hload : (Assembly.load fs path self.allocator).1 = .ok na) :
    (Assembly.swap fs mm self path T).2.2 = .ok () ∧
    (Assembly.swap fs mm self path T).1.legacy_libs =
      (if (mm self.info.types na.info.types).isEmpty then na.legacy_libs ++ self.legacy_libs
        else (na.legacy_libs ++ self.legacy_libs) ++ [self.library]) := by
  unfold Assembly.swap
  rw [hload]
  constructor
  · rfl
  · dsimp only
    by_cases hdel : (mm self.info.types na.info.types).isEmpty = true
    · rw [if_pos hdel, if_pos hdel]
      dsimp only
      rw [link_legacy]
    · rw [if_neg hdel, if_neg hdel]
      dsimp only
      rw [link_legacy]

/-- C7: for every successful swap whose library the assembly did not
already retain, the new legacy list is exactly the old one when the type
mapping produced zero orphaned objects — so the old module is absent from
it and eligible for immediate unload — and exactly the old list with the
old module appended when at least one object was orphaned; in both cases
every previously retained legacy library is carried forward, which is why
reachability of a retained module survives subsequent swaps. -/
theorem swap_legacy_retention (fs : FileSystem)
    (mm : List TypeInfo → List TypeInfo → List Nat) (self : Assembly) (path : String)
    (T : DispatchTable) (na : Assembly)
    (hload : (Assembly.load fs path self.allocator).1 = .ok na)
    (hown : self.library ∉ self.legacy_libs) :
    (Assembly.swap fs mm self path T).2.2 = .ok () ∧
    (mm self.info.types na.info.types = [] →
      (Assembly.swap fs mm self path T).1.legacy_libs = self.legacy_libs ∧
      self.library ∉ (Assembly.swap fs mm self path T).1.legacy_libs) ∧
    (mm self.info.types na.info.types ≠ [] →
      (Assembly.swap fs mm self path T).1.legacy_libs = self.legacy_libs ++ [self.library] ∧
      self.library ∈ (Assembly.swap fs mm self path T).1.legacy_libs) := by
  obtain ⟨hok, hchar⟩ := swap_ok_char fs mm self path T na hload
  have hleg : na.legacy_libs = [] := load_ok_inv fs path self.allocator na hload
  rw [hleg] at hchar
  simp only [List.nil_append] at hchar
  refine ⟨hok, ?_, ?_⟩
  · intro hdel
    have hie : (mm self.info.types na.info.types).isEmpty = true := by
      rw [hdel]
      rfl
    rw [if_pos hie] at hchar
    exact ⟨hchar, by rw [hchar]; exact hown⟩
  · intro hdel
    have hie : ¬ (mm self.info.types na.info.types).isEmpty = true := by
      cases hmm : mm self.info.types na.info.types with
      | nil => exact absurd hmm hdel
      | cons x l => simp [hmm]
    rw [if_neg hie] at hchar
    refine ⟨hchar, ?_⟩
    rw [hchar]
    exact List.mem_append_right _ (List.mem_singleton.mpr rfl)

/-- Witness for C7 at a swap that orphans an object: the old library 1 is
appended to the carried-forward legacy list `[9]`. -/
theorem swap_legacy_retention_witness :
    (Assembly.swap fs_c7 (fun _ _ => [5]) asmA_c7 "p7" ⟨[]⟩).2.2 = .ok () ∧
    (Assembly.swap fs_c7 (fun _ _ => [5]) asmA_c7 "p7" ⟨[]⟩).1.legacy_libs =
      asmA_c7.legacy_libs ++ [asmA_c7.library] ∧
    asmA_c7.library ∈ (Assembly.swap fs_c7 (fun _ _ => [5]) asmA_c7 "p7" ⟨[]⟩).1.legacy_libs := by
  have h := swap_legacy_retention fs_c7 (fun _ _ => [5]) asmA_c7 "p7" ⟨[]⟩
    (⟨"p7", 3, [], mf_c7.info, 7⟩ : Assembly) rfl (by decide)
  exact ⟨h.1, (h.2.2 (by decide)).1, (h.2.2 (by decide)).2⟩

/-- C4: when `link_all` succeeds (with well-formed inputs: every definition
in the base table and every export carries a non-null code pointer), every
foreign-code-table slot of every returned assembly is non-null — success
never leaves an unresolved slot behind. -/
theorem link_all_ok_all_slots_resolved (asms : List Assembly) (T : DispatchTable)
    (U : DispatchTable)
    (hT : ∀ e ∈ T.entries, e.2.fn_ptr ≠ FnPtr.null)
    (hA : ∀ a ∈ asms, ∀ f ∈ a.info.functions, f.fn_ptr ≠ FnPtr.null)
    (hok : (Assembly.link_all asms T).2 = .ok U) :
    ((Assembly.link_all asms T).1).all
      (fun a => a.info.dispatch_table.all fun s => s.ptr != FnPtr.null) = true := by
  have hdt : tableGood (insertAllExports asms T) :=
    tableGood_insertAllExports hA (tableGood_of_entries T hT)
  rcases hloop : linkLoop (insertAllExports asms T) ((collectNullSlots asms).length + 1)
      asms (collectNullSlots asms) with ⟨a1, k, res⟩
  cases res with
  | error e =>
    have h2 : (Assembly.link_all asms T).2 = .error e := by
      simp only [Assembly.link_all, hloop]
    rw [h2] at hok
    simp at hok
  | ok rem =>
    by_cases hrem : rem.isEmpty = true
    · have h1 : (Assembly.link_all asms T).1 = a1 := by
        simp only [Assembly.link_all, hloop, hrem, if_true]
      rw [h1]
      have hcov := linkLoop_nullCovered (insertAllExports asms T) hdt
        ((collectNullSlots asms).length + 1) asms (collectNullSlots asms) a1 k rem
        (collectNullSlots_valid asms) (collectNullSlots_covers asms) hloop
      have hrem' : rem = [] := by
        cases rem with
        | nil => rfl
        | cons x l => simp at hrem
      subst hrem'
      rw [List.all_eq_true]
      intro a ha
      rw [List.all_eq_true]
      intro s hs
      refine bne_iff_ne.mpr ?_
      intro hnull
      obtain ⟨i, hi⟩ := mem_idx ha
      obtain ⟨j, hj⟩ := mem_idx hs
      obtain ⟨p, hp⟩ := hcov i j s (by simp [slotAt, hi, hj]) hnull
      exact absurd hp (List.not_mem_nil _)
    · have h2 : (Assembly.link_all asms T).2 = .error .missingDependencies := by
        simp only [Assembly.link_all, hloop]
        rw [if_neg hrem]
      rw [h2] at hok
      simp at hok

/-- Witness for C4 at a self-resolving concrete assembly. -/
theorem link_all_ok_all_slots_resolved_witness :
    ((Assembly.link_all [asmA_c4] (⟨[]⟩ : DispatchTable)).1).all
      (fun a => a.info.dispatch_table.all fun s => s.ptr != FnPtr.null) = true :=
  link_all_ok_all_slots_resolved [asmA_c4] ⟨[]⟩ ⟨[("g", ⟨protoG, .code 1 3⟩)]⟩
    (by decide) (by decide) rfl
